import Mathlib

/-!
# Verification of the maps-scraper orchestration core

Shallow embedding of the orchestration layer of the scraper repository:

* `Business`, `keyOf`, `normalizePhone`  — the record model and dedup key
  (`src/scraper.js`, `scrapeGoogleMaps` merge loop and `normalizePhone`);
* `chunkArray`                           — the partitioner (`src/scraper.js`);
* `scrapeDirectUrl`                      — the per-item extractor over a
  page-outcome oracle (`src/scraper.js`);
* `scrapeUrlChunk`                       — one extraction worker over its chunk
  (`src/scraper.js`);
* `mergeChunk` / `mergeChunks`           — the orchestrator merge with global
  dedup and cap (`src/scraper.js`, lines 193-203);
* `scrapeGoogleMapsRun`                  — the orchestration run with an
  acquire/release event trace (`src/scraper.js`, `scrapeGoogleMaps`);
* `acquireStep` over `Pool`              — `BrowserPool.acquire` (`src/scraper.js`);
* `serverStep` over `ServerState`        — the admission counter of the HTTP
  layer (the express server source);
* `syncHandler`                          — the synchronous scrape endpoint;
* `settleJob` over `Job`                 — the async job lifecycle.

Effectful collaborators (page rendering, navigation, network) enter the model
as oracle inputs: a `PageData` describes what the rendered page showed, a
discovery outcome is an `Except` value, and per-URL extraction outcomes are
drawn from a function `String → Option PageData`. JavaScript machine details
that no claim touches are simplified where noted: float parsing of ratings and
coordinates keeps the raw matched strings, and a missing (undefined) name is
collapsed to the empty string, which the source treats identically in every
truthiness test it performs on a name.
-/

/-- A business record as assembled by scrapeDirectUrl. Rating and coordinate
values are kept as the raw strings the source feeds to parseFloat, since no
verified property inspects them numerically. A name that was never extracted
is represented by the empty string: the source only ever tests a name for
truthiness, where undefined and the empty string coincide. -/
structure Business where
  name : String
  address : Option String
  website : Option String
  domain : Option String
  phone : Option String
  rating : Option String
  reviews : Option Nat
  category : Option String
  coordLat : Option String
  coordLng : Option String
  googleMapsUrl : String
deriving DecidableEq, Repr

/-- Dedup key of a record: name joined with phone-or-empty by a pipe, as in
the template literal of the merge loop and of the worker loop. -/
def keyOf (b : Business) : String :=
  b.name ++ "|" ++ b.phone.getD ""

/-- Characters kept by the character class of normalizePhone: digits, plus,
whitespace, parentheses, hyphen. -/
def phoneCharAllowed (c : Char) : Bool :=
  c.isDigit || c = '+' || c.isWhitespace || c = '(' || c = ')' || c = '-'

/-- JavaScript String.prototype.trim over the character list of a string:
drop leading and trailing whitespace. Defined structurally so that concrete
scenarios evaluate inside the kernel. -/
def jsTrim (s : String) : String :=
  String.mk (((s.toList.dropWhile Char.isWhitespace).reverse.dropWhile
    Char.isWhitespace).reverse)

/-- Embedding of normalizePhone: a missing or falsy phone maps to none, else
the disallowed characters are stripped, the result trimmed, and an empty
remainder maps to none. An empty input string is falsy in the source and is
covered by the same branch here, since stripping and trimming it is empty. -/
def normalizePhone : Option String → Option String
  | none => none
  | some p =>
      let filtered := jsTrim (String.mk (p.toList.filter phoneCharAllowed))
      if filtered = "" then none else some filtered

/-- Auxiliary for chunkArray: repeatedly take size-c slices until the list is
exhausted, exactly as the index loop of the source does. The source reaches
c = 0 only with an empty input (where its loop body never runs), so the
c = 0 guard here only closes off a configuration the source never evaluates. -/
def chunksGo (c : Nat) (l : List α) : List (List α) :=
  if h : l.isEmpty ∨ c = 0 then []
  else l.take c :: chunksGo c (l.drop c)
termination_by l.length
decreasing_by
  push_neg at h
  obtain ⟨hl, hc⟩ := h
  have hlen : 0 < l.length := by
    cases l with
    | nil => simp [List.isEmpty] at hl
    | cons a t => simp
  have : 0 < c := Nat.pos_of_ne_zero hc
  simp [List.length_drop]
  omega

/-- Embedding of chunkArray: the chunk size is the ceiling of length over
parts, computed once, and the array is sliced at that stride. -/
def chunkArray (array : List α) (parts : Nat) : List (List α) :=
  chunksGo ((array.length + parts - 1) / parts) array

/-- One rendered place page, as seen by scrapeDirectUrl after navigation:
whether the name element became visible within its wait, and the raw texts
the five parallel extractions produced. -/
structure PageData where
  nameVisible : Bool
  rawName : Option String
  rawAddress : Option String
  rawWebsite : Option String
  rawPhone : Option String
  rawRating : Option String
  rawReviews : Option Nat
  coordLat : Option String
  coordLng : Option String
deriving DecidableEq, Repr

/-- Embedding of scrapeDirectUrl past navigation: if the name element never
became visible the function returns null; otherwise the record is assembled
from the extracted texts and returned only when its name is truthy. -/
def scrapeDirectUrl (pd : PageData) (url : String) : Option Business :=
  if !pd.nameVisible then none
  else
    let business : Business :=
      { name := (pd.rawName.map jsTrim).getD ""
        address := pd.rawAddress
        website := pd.rawWebsite.map (fun w => "https://www." ++ w)
        domain := pd.rawWebsite
        phone := normalizePhone pd.rawPhone
        rating := pd.rawRating
        reviews := pd.rawReviews
        category := none
        coordLat := pd.coordLat
        coordLng := pd.coordLng
        googleMapsUrl := url }
    if business.name ≠ "" then some business else none

/-- Embedding of scrapeUrlChunk, one extraction worker over its chunk. The
oracle `ext` stands for the awaited scrapeDirectUrl call; a `none` covers both
a null return and a thrown navigation error, which the per-item catch turns
into a silent skip. The pair returned is (worker output, global-seen set after
the run): the source checks membership in the shared set and checks its size
against the budget, but never inserts into it, so the set component is
threaded through unchanged. -/
def scrapeUrlChunk (ext : String → Option Business) (urls : List String)
    (globalSeen : List String) (maxTotal : Nat) : List Business × List String :=
  match urls with
  | [] => ([], globalSeen)
  | url :: rest =>
    if maxTotal ≤ globalSeen.length then ([], globalSeen)
    else
      match ext url with
      | some b =>
        if b.name ≠ "" then
          if globalSeen.contains (keyOf b) then
            scrapeUrlChunk ext rest globalSeen maxTotal
          else
            let tail := scrapeUrlChunk ext rest globalSeen maxTotal
            (b :: tail.1, tail.2)
        else scrapeUrlChunk ext rest globalSeen maxTotal
      | none => scrapeUrlChunk ext rest globalSeen maxTotal

/-- Inner loop of the orchestrator merge over one worker output: stop at the
cap (the break leaves only this chunk), skip a record whose key was seen,
otherwise mark the key seen and append the record. -/
def mergeChunk (maxResults : Nat) :
    List Business → List String × List Business → List String × List Business
  | [], st => st
  | b :: rest, (seen, results) =>
    if maxResults ≤ results.length then (seen, results)
    else if seen.contains (keyOf b) then
      mergeChunk maxResults rest (seen, results)
    else
      mergeChunk maxResults rest (keyOf b :: seen, results ++ [b])

/-- Outer loop of the orchestrator merge: fold the per-chunk merge over the
worker outputs in worker-index order, starting from the given seen set and an
empty result list. -/
def mergeChunks (chunkResults : List (List Business)) (seen : List String)
    (maxResults : Nat) : List Business :=
  (chunkResults.foldl (fun st chunk => mergeChunk maxResults chunk st) (seen, [])).2

/-- Pool events observed by one orchestration run. -/
inductive PoolEv
  | acquire
  | release
deriving DecidableEq, Repr

/-- The effectful collaborators of one orchestration run: the outcome of the
URL-discovery phase (collectListingUrls either raises or yields its
set-deduplicated URL list), the rendered page behind each URL (`none` models
a navigation failure for that URL), and an optional fan-in rejection standing
for a failure of the parallel-worker join outside the per-item catch. -/
structure RunEnv where
  discover : Except String (List String)
  pages : String → Option PageData
  faninError : Option String

/-- Per-URL extraction outcome as the worker sees it: navigate, then run
scrapeDirectUrl on the rendered page. -/
def extractOutcome (env : RunEnv) (url : String) : Option Business :=
  (env.pages url).bind (fun pd => scrapeDirectUrl pd url)

/-- Embedding of scrapeGoogleMaps: acquire a browser, discover URLs, return
the empty list when none were found, fan the first 2×maxResults URLs out to
workers over chunkArray, merge worker outputs with the global dedup set and
cap, and rethrow any discovery or fan-in error. Every exit path of the source
runs the finally clause, so every branch here carries the release event after
the acquire event; the caller observes the Except value only once the trace
is complete. The seen set is empty when the workers start and, because no
worker inserts into it, still empty when the merge starts. -/
def scrapeGoogleMapsRun (env : RunEnv) (maxResults workers : Nat) :
    Except String (List Business) × List PoolEv :=
  match env.discover with
  | .error e => (.error e, [PoolEv.acquire, PoolEv.release])
  | .ok urls =>
    if urls.isEmpty then (.ok [], [PoolEv.acquire, PoolEv.release])
    else
      match env.faninError with
      | some e => (.error e, [PoolEv.acquire, PoolEv.release])
      | none =>
        let chunks := chunkArray (urls.take (maxResults * 2)) workers
        let chunkResults :=
          chunks.map (fun c => (scrapeUrlChunk (extractOutcome env) c [] maxResults).1)
        (.ok (mergeChunks chunkResults [] maxResults), [PoolEv.acquire, PoolEv.release])

/-- An entry of the browser pool, with its connectivity at observation time.
Only connected browsers are ever pushed into the idle stack, but an idle
browser may have disconnected since. -/
structure PoolBrowser where
  id : Nat
  connected : Bool
deriving DecidableEq, Repr

/-- State of BrowserPool: the size bound, how many browsers were created (the
length of the browsers array), and the idle stack, head being the most
recently pushed entry (the one a pop removes). -/
structure Pool where
  maxSize : Nat
  created : Nat
  available : List PoolBrowser
deriving DecidableEq, Repr

/-- Outcome of one pass through BrowserPool.acquire. -/
inductive AcquireOutcome
  | reused (b : PoolBrowser)
  | madeNew
  | waitRetry
deriving DecidableEq, Repr

/-- Embedding of one pass of BrowserPool.acquire: if the idle stack is
nonempty, pop its top entry; a connected popped entry is returned, a
disconnected one is dropped. Failing that, create a new browser when under
the size bound, else sleep and retry (the recursive call, modelled as the
waitRetry outcome). -/
def acquireStep (p : Pool) : AcquireOutcome × Pool :=
  match p.available with
  | b :: rest =>
    if b.connected then (.reused b, { p with available := rest })
    else if p.created < p.maxSize then
      (.madeNew, { p with available := rest, created := p.created + 1 })
    else (.waitRetry, { p with available := rest })
  | [] =>
    if p.created < p.maxSize then (.madeNew, { p with created := p.created + 1 })
    else (.waitRetry, p)

/-- Embedding of BrowserPool.release: push the browser back on the idle stack
only if it is still connected, else drop it. -/
def releaseStep (p : Pool) (b : PoolBrowser) : Pool :=
  if b.connected then { p with available := b :: p.available } else p

/-- State of the HTTP layer that the admission counter lives in: the
configured maximum, the activeJobs counter (touched only by the synchronous
handler), and the number of orchestration runs currently in flight across
all entry points. -/
structure ServerState where
  maxJobs : Nat
  activeJobs : Nat
  runningOrch : Nat
deriving DecidableEq, Repr

/-- Admission decision of the synchronous handler. -/
inductive SyncAdmission
  | rejected429
  | admitted
deriving DecidableEq, Repr

/-- Embedding of the admission check of the synchronous scrape handler: when
activeJobs has reached the maximum, respond 429 at once and leave the state
untouched (no queue); otherwise increment the counter and start a run. -/
def syncAdmit (s : ServerState) : SyncAdmission × ServerState :=
  if s.maxJobs ≤ s.activeJobs then (.rejected429, s)
  else (.admitted,
    { s with activeJobs := s.activeJobs + 1, runningOrch := s.runningOrch + 1 })

/-- API events that start or settle orchestration runs. The bulk handler and
the async handler call scrapeGoogleMaps without consulting activeJobs, so
their start events carry no admission branch; the finally clause of the
synchronous handler decrements activeJobs when its run settles. -/
inductive ApiEvent
  | syncStart
  | syncEnd
  | asyncStart
  | asyncEnd
  | bulkStart
  | bulkEnd
deriving DecidableEq, Repr

/-- One step of the HTTP layer on an API event, as the handlers mutate the
shared counters. -/
def serverStep (s : ServerState) (e : ApiEvent) : ServerState :=
  match e with
  | .syncStart => (syncAdmit s).2
  | .syncEnd => { s with activeJobs := s.activeJobs - 1, runningOrch := s.runningOrch - 1 }
  | .asyncStart => { s with runningOrch := s.runningOrch + 1 }
  | .asyncEnd => { s with runningOrch := s.runningOrch - 1 }
  | .bulkStart => { s with runningOrch := s.runningOrch + 1 }
  | .bulkEnd => { s with runningOrch := s.runningOrch - 1 }

/-- Response of the synchronous scrape handler before any scraping happens:
either a 400 for a missing or empty query, a 429 from admission, or the
invocation of the orchestrator with the effective parameters. -/
inductive SyncResponse
  | badRequest
  | overCapacity
  | invoke (query : String) (maxResults workers : Nat)
deriving DecidableEq, Repr

/-- Embedding of the request processing of the synchronous scrape handler:
destructure the body with defaults 20 and the configured worker default,
reject a falsy query with 400, reject at admission saturation with 429, and
otherwise invoke scrapeGoogleMaps with maxResults capped at 100 and workers
capped at 5. -/
def syncHandler (activeJobs maxJobs defaultWorkers : Nat)
    (query : Option String) (maxResults workers : Option Nat) : SyncResponse :=
  let mr := maxResults.getD 20
  let w := workers.getD defaultWorkers
  match query with
  | none => .badRequest
  | some q =>
    if q = "" then .badRequest
    else if maxJobs ≤ activeJobs then .overCapacity
    else .invoke q (min mr 100) (min w 5)

/-- Status of an async job. -/
inductive JobStatus
  | pending
  | completed
  | failed
deriving DecidableEq, Repr

/-- An async job record, timestamps omitted: its status, the result list
attached on completion, and the error message attached on failure. -/
structure Job where
  status : JobStatus
  results : Option (List Business)
  error : Option String
deriving DecidableEq, Repr

/-- The job as stored at submission time. -/
def mkPendingJob : Job :=
  { status := .pending, results := none, error := none }

/-- Embedding of the background completion handlers of the async endpoint:
the then-callback overwrites the stored job with status completed and the
results, the catch-callback with status failed and the error message, each
preserving the other fields of the stored job. -/
def settleJob (j : Job) (outcome : Except String (List Business)) : Job :=
  match outcome with
  | .ok rs => { j with status := .completed, results := some rs }
  | .error e => { j with status := .failed, error := some e }

/-- Job state after a sequence of settlement events. The background promise
of one job settles at most once and has exactly one then/catch pair attached,
so the traces the runtime can produce for one job have length at most one;
the definition is over all traces so that this bound can be a stated
hypothesis rather than a baked-in assumption. -/
def jobAfterEvents (events : List (Except String (List Business))) : Job :=
  events.foldl settleJob mkPendingJob

/-- A rendered page used by concrete scenarios: the name element is visible
and reads Acme, every other extraction comes back empty. -/
def acmePage : PageData :=
  { nameVisible := true
    rawName := some "Acme"
    rawAddress := none
    rawWebsite := none
    rawPhone := none
    rawRating := none
    rawReviews := none
    coordLat := none
    coordLng := none }

/-- The record scrapeDirectUrl assembles from acmePage at a given URL. -/
def acmeBiz (url : String) : Business :=
  { name := "Acme"
    address := none
    website := none
    domain := none
    phone := none
    rating := none
    reviews := none
    category := none
    coordLat := none
    coordLng := none
    googleMapsUrl := url }

/-- Extraction oracle where every URL renders acmePage. -/
def acmeExt : String → Option Business :=
  fun url => scrapeDirectUrl acmePage url

/-- A pool state whose idle stack holds a disconnected browser on top of a
connected one: browser 0 was pushed while connected and has since dropped
its connection, browser 1 below it is still live. -/
def stalePool : Pool :=
  { maxSize := 3
    created := 2
    available := [{ id := 0, connected := false }, { id := 1, connected := true }] }

/-- Server state trace: six async submissions arriving at a fresh server
configured with the default maximum of five concurrent jobs. -/
def sixAsyncState : ServerState :=
  (List.replicate 6 ApiEvent.asyncStart).foldl serverStep
    { maxJobs := 5, activeJobs := 0, runningOrch := 0 }

/-- A concrete orchestration environment: discovery finds two URLs and every
URL renders acmePage, so the two workers produce records with equal dedup
keys. -/
def demoEnv : RunEnv :=
  { discover := .ok ["u1", "u2"]
    pages := fun _ => some acmePage
    faninError := none }

/-- A pool whose idle stack holds one connected browser. -/
def livePool : Pool :=
  { maxSize := 3
    created := 1
    available := [{ id := 7, connected := true }] }

/-! ## Partitioner lemmas -/

theorem chunksGo_nil (c : Nat) : chunksGo c ([] : List α) = [] := by
  rw [chunksGo]
  simp

theorem chunksGo_of_ne (c : Nat) (l : List α) (hc : c ≠ 0) (hl : l ≠ []) :
    chunksGo c l = l.take c :: chunksGo c (l.drop c) := by
  rw [chunksGo]
  simp [hl, hc]

theorem chunksGo_ne_nil (c : Nat) (l : List α) (hc : c ≠ 0) (hl : l ≠ []) :
    chunksGo c l ≠ [] := by
  rw [chunksGo_of_ne c l hc hl]
  simp

theorem chunksGo_flatten (c : Nat) (hc : c ≠ 0) (l : List α) :
    (chunksGo c l).flatten = l := by
  induction l using chunksGo.induct c with
  | case1 x hx =>
    rcases hx with hx | hx
    · rw [List.isEmpty_iff] at hx
      subst hx
      rw [chunksGo_nil]
      rfl
    · exact absurd hx hc
  | case2 x hx ih =>
    push_neg at hx
    rw [chunksGo_of_ne c x hc (by simpa [List.isEmpty_iff] using hx.1)]
    simp [ih]

theorem chunksGo_length_le (c : Nat) (hc : c ≠ 0) (l : List α) :
    ∀ p : Nat, l.length ≤ c * p → (chunksGo c l).length ≤ p := by
  induction l using chunksGo.induct c with
  | case1 x hx =>
    intro p hp
    rcases hx with hx | hx
    · rw [List.isEmpty_iff] at hx
      subst hx
      rw [chunksGo_nil]
      simp
    · exact absurd hx hc
  | case2 x hx ih =>
    intro p hp
    push_neg at hx
    have hxne : x ≠ [] := by simpa [List.isEmpty_iff] using hx.1
    have hcpos : 0 < c := Nat.pos_of_ne_zero hc
    have hxlen : 0 < x.length := List.length_pos.mpr hxne
    match p with
    | 0 => omega
    | q + 1 =>
      rw [chunksGo_of_ne c x hc hxne]
      have hdrop : (List.drop c x).length ≤ c * q := by
        have hmul : c * (q + 1) = c * q + c := Nat.mul_succ c q
        simp [List.length_drop]
        omega
      have := ih q hdrop
      simp
      omega

theorem chunksGo_dropLast_length (c : Nat) (hc : c ≠ 0) (l : List α) :
    ∀ ch ∈ (chunksGo c l).dropLast, ch.length = c := by
  induction l using chunksGo.induct c with
  | case1 x hx =>
    rcases hx with hx | hx
    · rw [List.isEmpty_iff] at hx
      subst hx
      rw [chunksGo_nil]
      simp
    · exact absurd hx hc
  | case2 x hx ih =>
    push_neg at hx
    have hxne : x ≠ [] := by simpa [List.isEmpty_iff] using hx.1
    rw [chunksGo_of_ne c x hc hxne]
    by_cases hd : List.drop c x = []
    · rw [hd, chunksGo_nil]
      simp
    · have hne := chunksGo_ne_nil c (List.drop c x) hc hd
      intro ch hch
      rw [List.dropLast_cons_of_ne_nil hne] at hch
      rcases List.mem_cons.mp hch with h1 | h2
      · subst h1
        have : c < x.length := by
          by_contra hcon
          exact hd (List.drop_eq_nil_of_le (by omega))
        simp [List.length_take]
        omega
      · exact ih ch h2

theorem chunksGo_getLast (c : Nat) (hc : c ≠ 0) (l : List α) (hl : l ≠ []) :
    ∃ ch, (chunksGo c l).getLast? = some ch ∧ 1 ≤ ch.length ∧ ch.length ≤ c := by
  induction l using chunksGo.induct c with
  | case1 x hx =>
    rcases hx with hx | hx
    · rw [List.isEmpty_iff] at hx
      exact absurd hx hl
    · exact absurd hx hc
  | case2 x hx ih =>
    push_neg at hx
    have hxlen : 0 < x.length := List.length_pos.mpr hl
    rw [chunksGo_of_ne c x hc hl]
    by_cases hd : List.drop c x = []
    · rw [hd, chunksGo_nil]
      refine ⟨x.take c, rfl, ?_, ?_⟩
      · simp [List.length_take]
        omega
      · simp [List.length_take]
    · obtain ⟨ch, hch, h1, h2⟩ := ih hd
      refine ⟨ch, ?_, h1, h2⟩
      obtain ⟨y, ys, hys⟩ := List.exists_cons_of_ne_nil (chunksGo_ne_nil c (List.drop c x) hc hd)
      rw [hys] at hch ⊢
      rw [List.getLast?_cons_cons]
      exact hch

theorem ceil_pos_facts (len p : Nat) (hp : 1 ≤ p) (hl : 1 ≤ len) :
    1 ≤ (len + p - 1) / p ∧ len ≤ (len + p - 1) / p * p := by
  have h1 := Nat.div_add_mod' (len + p - 1) p
  have h2 := Nat.mod_lt (len + p - 1) (show 0 < p by omega)
  constructor
  · rw [Nat.one_le_div_iff (by omega)]
    omega
  · omega

/-- C5 (corrected): for nonempty items and workerCount ≥ 1, chunkArray
returns between one and workerCount contiguous chunks, each of size exactly
ceil(length / workerCount) except the last, which may be shorter but is
never empty. The source does not always return exactly workerCount chunks
and two chunk sizes can differ by more than one, as the counterexample
theorem shows. -/
theorem chunkArray_structure (l : List α) (p : Nat) (hl : l ≠ []) (hp : 1 ≤ p) :
    1 ≤ (chunkArray l p).length ∧ (chunkArray l p).length ≤ p ∧
    (∀ ch ∈ (chunkArray l p).dropLast, ch.length = (l.length + p - 1) / p) ∧
    (∀ ch, (chunkArray l p).getLast? = some ch →
      1 ≤ ch.length ∧ ch.length ≤ (l.length + p - 1) / p) := by
  have hlen : 1 ≤ l.length := List.length_pos.mpr hl
  obtain ⟨hc1, hc2⟩ := ceil_pos_facts l.length p hp hlen
  have hc0 : (l.length + p - 1) / p ≠ 0 := by omega
  refine ⟨?_, ?_, ?_, ?_⟩
  · have := chunksGo_ne_nil ((l.length + p - 1) / p) l hc0 hl
    unfold chunkArray
    cases hcg : chunksGo ((l.length + p - 1) / p) l with
    | nil => exact absurd hcg this
    | cons a t => simp
  · exact chunksGo_length_le _ hc0 l p hc2
  · exact chunksGo_dropLast_length _ hc0 l
  · intro ch hch
    obtain ⟨ch2, hch2, h1, h2⟩ := chunksGo_getLast _ hc0 l hl
    unfold chunkArray at hch
    rw [hch2] at hch
    injection hch with heq
    subst heq
    exact ⟨h1, h2⟩

/-- Witness for the corrected C5 statement at seven items and three workers. -/
theorem chunkArray_structure_witness :
    (([0,1,2,3,4,5,6] : List Nat) ≠ [] ∧ 1 ≤ 3) ∧
    (1 ≤ (chunkArray ([0,1,2,3,4,5,6] : List Nat) 3).length ∧
     (chunkArray ([0,1,2,3,4,5,6] : List Nat) 3).length ≤ 3 ∧
     (∀ ch ∈ (chunkArray ([0,1,2,3,4,5,6] : List Nat) 3).dropLast,
        ch.length = (([0,1,2,3,4,5,6] : List Nat).length + 3 - 1) / 3) ∧
     (∀ ch, (chunkArray ([0,1,2,3,4,5,6] : List Nat) 3).getLast? = some ch →
        1 ≤ ch.length ∧ ch.length ≤ (([0,1,2,3,4,5,6] : List Nat).length + 3 - 1) / 3)) :=
  ⟨⟨by decide, by decide⟩, chunkArray_structure [0,1,2,3,4,5,6] 3 (by decide) (by decide)⟩

/-- C5 counterexample: with four items and three workers chunkArray returns
two chunks, not three; with seven items and three workers the chunk sizes
are 3, 3, 1, two of which differ by more than one. -/
theorem chunkArray_claim_fails :
    chunkArray [0,1,2,3] 3 = [[0,1],[2,3]] ∧
    ([[0,1],[2,3]] : List (List Nat)).length ≠ 3 ∧
    chunkArray [0,1,2,3,4,5,6] 3 = [[0,1,2],[3,4,5],[6]] ∧
    ¬(∀ c1 ∈ [[0,1,2],[3,4,5],[(6:Nat)]], ∀ c2 ∈ [[0,1,2],[3,4,5],[(6:Nat)]],
        c1.length ≤ c2.length + 1) := by
  refine ⟨by simp [chunkArray, chunksGo], by decide, by simp [chunkArray, chunksGo], by decide⟩

/-- C6: for every items list and workerCount ≥ 1 the concatenation of the
chunks in chunk order is the input list, and the chunk lengths sum to the
input length, so no item is dropped, duplicated or reordered; chunkArray is
a pure function of its arguments, hence deterministic. -/
theorem chunkArray_flatten_eq (l : List α) (p : Nat) (hp : 1 ≤ p) :
    (chunkArray l p).flatten = l ∧
    ((chunkArray l p).map List.length).sum = l.length := by
  have hfl : (chunkArray l p).flatten = l := by
    by_cases hl : l = []
    · subst hl
      unfold chunkArray
      rw [chunksGo_nil]
      rfl
    · have hlen : 1 ≤ l.length := List.length_pos.mpr hl
      have hc0 : (l.length + p - 1) / p ≠ 0 := by
        obtain ⟨hc1, _⟩ := ceil_pos_facts l.length p hp hlen
        omega
      exact chunksGo_flatten _ hc0 l
  refine ⟨hfl, ?_⟩
  calc ((chunkArray l p).map List.length).sum = (chunkArray l p).flatten.length := by
        rw [List.length_flatten]
  _ = l.length := by rw [hfl]

/-- Witness for C6 at five items and two workers. -/
theorem chunkArray_flatten_eq_witness :
    1 ≤ 2 ∧
    ((chunkArray ([0,1,2,3,4] : List Nat) 2).flatten = [0,1,2,3,4] ∧
     ((chunkArray ([0,1,2,3,4] : List Nat) 2).map List.length).sum =
       ([0,1,2,3,4] : List Nat).length) :=
  ⟨by decide, chunkArray_flatten_eq [0,1,2,3,4] 2 (by decide)⟩

/-! ## Merge and worker lemmas -/

theorem mergeChunk_inv (maxResults : Nat) (chunk : List Business) :
    ∀ seen : List String, ∀ results : List Business,
    (results.map keyOf).Nodup →
    (∀ b ∈ results, keyOf b ∈ seen) →
    results.length ≤ maxResults →
    ((mergeChunk maxResults chunk (seen, results)).2.map keyOf).Nodup ∧
    (∀ b ∈ (mergeChunk maxResults chunk (seen, results)).2,
      keyOf b ∈ (mergeChunk maxResults chunk (seen, results)).1) ∧
    (mergeChunk maxResults chunk (seen, results)).2.length ≤ maxResults ∧
    (∀ b ∈ (mergeChunk maxResults chunk (seen, results)).2,
      b ∈ results ∨ b ∈ chunk) := by
  induction chunk with
  | nil =>
    intro seen results hnd hsub hlen
    exact ⟨hnd, fun b hb => hsub b hb, hlen, fun b hb => Or.inl hb⟩
  | cons b rest ih =>
    intro seen results hnd hsub hlen
    rw [mergeChunk]
    by_cases hfull : maxResults ≤ results.length
    · simp only [hfull, if_true]
      exact ⟨hnd, fun x hx => hsub x hx, hlen, fun x hx => Or.inl hx⟩
    · simp only [hfull, if_false]
      by_cases hseen : seen.contains (keyOf b)
      · simp only [hseen, if_true]
        obtain ⟨a1, a2, a3, a4⟩ := ih seen results hnd hsub hlen
        refine ⟨a1, a2, a3, fun x hx => ?_⟩
        rcases a4 x hx with h | h
        · exact Or.inl h
        · exact Or.inr (List.mem_cons_of_mem b h)
      · simp only [hseen, if_false]
        have hnotmem : keyOf b ∉ seen := by
          intro hmem
          exact hseen (List.elem_eq_true_of_mem hmem)
        have hnd2 : ((results ++ [b]).map keyOf).Nodup := by
          rw [List.map_append]
          rw [List.nodup_append]
          refine ⟨hnd, List.nodup_singleton _, ?_⟩
          intro k hk
          simp only [List.map_cons, List.map_nil, List.mem_singleton]
          intro hkb
          subst hkb
          obtain ⟨x, hx, hkx⟩ := List.mem_map.mp hk
          exact hnotmem (hkx ▸ hsub x hx)
        have hsub2 : ∀ x ∈ results ++ [b], keyOf x ∈ keyOf b :: seen := by
          intro x hx
          rcases List.mem_append.mp hx with h | h
          · exact List.mem_cons_of_mem _ (hsub x h)
          · rw [List.mem_singleton.mp h]
            exact List.mem_cons_self _ _
        have hlen2 : (results ++ [b]).length ≤ maxResults := by
          simp
          omega
        obtain ⟨a1, a2, a3, a4⟩ := ih (keyOf b :: seen) (results ++ [b]) hnd2 hsub2 hlen2
        refine ⟨a1, a2, a3, fun x hx => ?_⟩
        rcases a4 x hx with h | h
        · rcases List.mem_append.mp h with h2 | h2
          · exact Or.inl h2
          · exact Or.inr (List.mem_singleton.mp h2 ▸ List.mem_cons_self b rest)
        · exact Or.inr (List.mem_cons_of_mem b h)

theorem mergeFold_inv (maxResults : Nat) (chunks : List (List Business)) :
    ∀ seen : List String, ∀ results : List Business,
    (results.map keyOf).Nodup →
    (∀ b ∈ results, keyOf b ∈ seen) →
    results.length ≤ maxResults →
    (((chunks.foldl (fun st chunk => mergeChunk maxResults chunk st)
        (seen, results)).2.map keyOf).Nodup ∧
     (chunks.foldl (fun st chunk => mergeChunk maxResults chunk st)
        (seen, results)).2.length ≤ maxResults ∧
     (∀ b ∈ (chunks.foldl (fun st chunk => mergeChunk maxResults chunk st)
        (seen, results)).2, b ∈ results ∨ ∃ c ∈ chunks, b ∈ c)) := by
  induction chunks with
  | nil =>
    intro seen results hnd hsub hlen
    exact ⟨hnd, hlen, fun b hb => Or.inl hb⟩
  | cons chunk rest ih =>
    intro seen results hnd hsub hlen
    simp only [List.foldl_cons]
    obtain ⟨a1, a2, a3, a4⟩ := mergeChunk_inv maxResults chunk seen results hnd hsub hlen
    have hpair : mergeChunk maxResults chunk (seen, results) =
        ((mergeChunk maxResults chunk (seen, results)).1,
         (mergeChunk maxResults chunk (seen, results)).2) := rfl
    rw [hpair]
    obtain ⟨b1, b2, b3⟩ := ih _ _ a1 a2 a3
    refine ⟨b1, b2, fun b hb => ?_⟩
    rcases b3 b hb with h | ⟨c, hc, hbc⟩
    · rcases a4 b h with h2 | h2
      · exact Or.inl h2
      · exact Or.inr ⟨chunk, List.mem_cons_self _ _, h2⟩
    · exact Or.inr ⟨c, List.mem_cons_of_mem _ hc, hbc⟩

theorem scrapeUrlChunk_mem (ext : String → Option Business) (urls : List String) :
    ∀ globalSeen : List String, ∀ maxTotal : Nat,
    ∀ b ∈ (scrapeUrlChunk ext urls globalSeen maxTotal).1,
      b.name ≠ "" ∧ ∃ url ∈ urls, ext url = some b := by
  induction urls with
  | nil =>
    intro globalSeen maxTotal b hb
    rw [scrapeUrlChunk] at hb
    simp at hb
  | cons url rest ih =>
    intro globalSeen maxTotal b hb
    rw [scrapeUrlChunk] at hb
    split at hb
    · simp at hb
    · split at hb
      · next b2 hext =>
        split at hb
        · next hname =>
          split at hb
          · next hseen =>
            obtain ⟨h1, u, hu, he⟩ := ih globalSeen maxTotal b hb
            exact ⟨h1, u, List.mem_cons_of_mem _ hu, he⟩
          · next hseen =>
            simp only [List.mem_cons] at hb
            rcases hb with hb | hb
            · subst hb
              exact ⟨hname, url, List.mem_cons_self _ _, hext⟩
            · obtain ⟨h1, u, hu, he⟩ := ih globalSeen maxTotal b hb
              exact ⟨h1, u, List.mem_cons_of_mem _ hu, he⟩
        · next hname =>
          obtain ⟨h1, u, hu, he⟩ := ih globalSeen maxTotal b hb
          exact ⟨h1, u, List.mem_cons_of_mem _ hu, he⟩
      · next hext =>
        obtain ⟨h1, u, hu, he⟩ := ih globalSeen maxTotal b hb
        exact ⟨h1, u, List.mem_cons_of_mem _ hu, he⟩

theorem run_ok_names (env : RunEnv) (maxResults workers : Nat)
    (r : List Business) (h : (scrapeGoogleMapsRun env maxResults workers).1 = .ok r) :
    ∀ b ∈ r, b.name ≠ "" := by
  unfold scrapeGoogleMapsRun at h
  split at h
  · simp at h
  · split at h
    · obtain rfl : r = [] := by simpa using h.symm
      simp
    · split at h
      · simp at h
      · obtain rfl : _ = r := by simpa using h
        unfold mergeChunks
        intro b hb
        obtain ⟨a1, a2, a3⟩ := mergeFold_inv maxResults _ [] [] (by simp) (by simp) (by simp)
        rcases a3 b hb with hmem | ⟨c, hc, hbc⟩
        · simp at hmem
        · obtain ⟨chunk, hchunk, hcw⟩ := List.mem_map.mp hc
          subst hcw
          exact (scrapeUrlChunk_mem _ chunk [] maxResults b hbc).1

/-! ## Claim theorems on the orchestration run -/

/-- C1: whenever an orchestration run returns normally, no two records of the
returned list share a dedup key and the list length is at most maxResults. -/
theorem run_ok_dedup_capped (env : RunEnv) (maxResults workers : Nat)
    (r : List Business) (h : (scrapeGoogleMapsRun env maxResults workers).1 = .ok r) :
    (r.map keyOf).Nodup ∧ r.length ≤ maxResults := by
  unfold scrapeGoogleMapsRun at h
  split at h
  · simp at h
  · split at h
    · obtain rfl : r = [] := by simpa using h.symm
      simp
    · split at h
      · simp at h
      · obtain rfl : _ = r := by simpa using h
        unfold mergeChunks
        obtain ⟨a1, a2, a3⟩ := mergeFold_inv maxResults _ [] [] (by simp) (by simp) (by simp)
        exact ⟨a1, a2⟩

/-- Witness for C1: the demo run returns one record out of two equal-keyed
candidates, with distinct keys and length within the cap of five. -/
theorem run_ok_dedup_capped_witness :
    (scrapeGoogleMapsRun demoEnv 5 2).1 = .ok [acmeBiz "u1"] ∧
    (([acmeBiz "u1"].map keyOf).Nodup ∧ [acmeBiz "u1"].length ≤ 5) :=
  ⟨by simp [scrapeGoogleMapsRun, demoEnv, chunkArray, chunksGo, mergeChunks, mergeChunk,
      scrapeUrlChunk, extractOutcome, scrapeDirectUrl, acmePage, acmeBiz, keyOf,
      normalizePhone, jsTrim],
   run_ok_dedup_capped demoEnv 5 2 [acmeBiz "u1"]
    (by simp [scrapeGoogleMapsRun, demoEnv, chunkArray, chunksGo, mergeChunks, mergeChunk,
      scrapeUrlChunk, extractOutcome, scrapeDirectUrl, acmePage, acmeBiz, keyOf,
      normalizePhone, jsTrim])⟩

/-- C2 (code bug): evaluated at a concrete chunk, the worker accepts a record
whose key is absent from the shared global-seen set, yet returns the set
unchanged; a second worker given the same still-empty set accepts a record
with an equal key, and a worker whose budget is already met by a prior
acceptance (maxTotal one, one record accepted elsewhere) still proceeds,
because the size check reads a set into which no acceptance was ever
recorded. -/
theorem worker_accepts_without_marking :
    scrapeUrlChunk acmeExt ["u1"] [] 10 = ([acmeBiz "u1"], []) ∧
    scrapeUrlChunk acmeExt ["u2"] [] 10 = ([acmeBiz "u2"], []) ∧
    keyOf (acmeBiz "u1") = keyOf (acmeBiz "u2") ∧
    scrapeUrlChunk acmeExt ["u2"] [] 1 = ([acmeBiz "u2"], []) := by
  refine ⟨by decide, by decide, by decide, by decide⟩

/-- C8: every orchestration run acquires the pooled resource exactly once and
releases it exactly once, on the normal path, the empty-discovery path, the
discovery-failure path and the fan-in-failure path alike, and the release is
the last pool event of the run, so an error reaches the caller only after
the release has happened. -/
theorem run_trace_release (env : RunEnv) (maxResults workers : Nat) :
    (scrapeGoogleMapsRun env maxResults workers).2.count PoolEv.acquire = 1 ∧
    (scrapeGoogleMapsRun env maxResults workers).2.count PoolEv.release = 1 ∧
    (scrapeGoogleMapsRun env maxResults workers).2.getLast? = some PoolEv.release := by
  unfold scrapeGoogleMapsRun
  split
  · exact ⟨rfl, rfl, rfl⟩
  · split
    · exact ⟨rfl, rfl, rfl⟩
    · split
      · exact ⟨rfl, rfl, rfl⟩
      · exact ⟨rfl, rfl, rfl⟩

/-- C10: an extraction without a visible name element produces null, a
produced record always carries a non-empty name, and every record in the
final result list of a normally returning orchestration run has a non-empty
name. -/
theorem final_records_named :
    (∀ pd : PageData, ∀ url : String, pd.nameVisible = false →
        scrapeDirectUrl pd url = none) ∧
    (∀ pd : PageData, ∀ url : String, ∀ b : Business,
        scrapeDirectUrl pd url = some b → b.name ≠ "") ∧
    (∀ env : RunEnv, ∀ mr w : Nat, ∀ r : List Business,
        (scrapeGoogleMapsRun env mr w).1 = .ok r → ∀ b ∈ r, b.name ≠ "") := by
  refine ⟨?_, ?_, fun env mr w r h => run_ok_names env mr w r h⟩
  · intro pd url hv
    unfold scrapeDirectUrl
    simp [hv]
  · intro pd url b hb
    unfold scrapeDirectUrl at hb
    split at hb
    · simp at hb
    · simp only [] at hb
      split at hb
      · next hname =>
        injection hb with hb2
        subst hb2
        exact hname
      · simp at hb

/-- Witness for C10: the record of the demo run carries a non-empty name. -/
theorem final_records_named_witness :
    (scrapeGoogleMapsRun demoEnv 5 2).1 = .ok [acmeBiz "u1"] ∧
    (∀ b ∈ [acmeBiz "u1"], b.name ≠ "") :=
  ⟨by simp [scrapeGoogleMapsRun, demoEnv, chunkArray, chunksGo, mergeChunks, mergeChunk,
      scrapeUrlChunk, extractOutcome, scrapeDirectUrl, acmePage, acmeBiz, keyOf,
      normalizePhone, jsTrim],
   final_records_named.2.2 demoEnv 5 2 [acmeBiz "u1"]
    (by simp [scrapeGoogleMapsRun, demoEnv, chunkArray, chunksGo, mergeChunks, mergeChunk,
      scrapeUrlChunk, extractOutcome, scrapeDirectUrl, acmePage, acmeBiz, keyOf,
      normalizePhone, jsTrim])⟩

/-! ## Admission, pool, handler and job theorems -/

theorem sync_counter_bounded (events : List ApiEvent) :
    ∀ s : ServerState, s.activeJobs ≤ s.maxJobs →
    (events.foldl serverStep s).activeJobs ≤ (events.foldl serverStep s).maxJobs := by
  induction events with
  | nil => intro s h; exact h
  | cons e rest ih =>
    intro s h
    simp only [List.foldl_cons]
    apply ih
    cases e with
    | syncStart =>
      simp only [serverStep]
      unfold syncAdmit
      split
      · exact h
      · next hlt => simp; omega
    | syncEnd => simp [serverStep]; omega
    | asyncStart => simpa [serverStep] using h
    | asyncEnd => simpa [serverStep] using h
    | bulkStart => simpa [serverStep] using h
    | bulkEnd => simpa [serverStep] using h

/-- C3 (corrected): only the synchronous endpoint is admission-controlled.
Along every event trace the activeJobs counter stays at or below the
configured maximum, and an acquisition attempted at saturation is rejected
immediately with a 429 and no state change, never queued. The claim as
stated over all entry points fails: the async and bulk handlers start runs
without consulting the counter, as the counterexample theorem shows. -/
theorem sync_admission_amended (events : List ApiEvent) (s : ServerState)
    (h : s.activeJobs ≤ s.maxJobs) :
    (events.foldl serverStep s).activeJobs ≤ (events.foldl serverStep s).maxJobs ∧
    (∀ t : ServerState, t.maxJobs ≤ t.activeJobs → syncAdmit t = (.rejected429, t)) := by
  refine ⟨sync_counter_bounded events s h, fun t ht => ?_⟩
  unfold syncAdmit
  rw [if_pos ht]

/-- Witness for the corrected C3 statement at two sync arrivals on a server
with a maximum of one. -/
theorem sync_admission_amended_witness :
    ({ maxJobs := 1, activeJobs := 0, runningOrch := 0 } : ServerState).activeJobs ≤
      ({ maxJobs := 1, activeJobs := 0, runningOrch := 0 } : ServerState).maxJobs ∧
    (([ApiEvent.syncStart, ApiEvent.syncStart].foldl serverStep
        { maxJobs := 1, activeJobs := 0, runningOrch := 0 }).activeJobs ≤
      ([ApiEvent.syncStart, ApiEvent.syncStart].foldl serverStep
        { maxJobs := 1, activeJobs := 0, runningOrch := 0 }).maxJobs ∧
     (∀ t : ServerState, t.maxJobs ≤ t.activeJobs → syncAdmit t = (.rejected429, t))) :=
  ⟨by decide,
   sync_admission_amended [ApiEvent.syncStart, ApiEvent.syncStart]
    { maxJobs := 1, activeJobs := 0, runningOrch := 0 } (by decide)⟩

/-- C3 counterexample: six async submissions on a fresh server with the
default maximum of five are all started, leaving six orchestration runs in
flight, more than the configured maximum. -/
theorem async_runs_exceed_cap :
    sixAsyncState.maxJobs = 5 ∧ sixAsyncState.runningOrch = 6 ∧
    sixAsyncState.maxJobs < sixAsyncState.runningOrch := by
  decide

/-- C4 (corrected): when the idle stack is nonempty and its most recently
pushed entry is still connected, acquire returns that entry and creates
nothing. The claim as stated over any idle connected entry fails: a
disconnected top entry sends acquire to the creation path even when a
connected entry sits deeper in the stack, as the counterexample theorem
shows. -/
theorem acquire_reuses_top_connected (p : Pool) (b : PoolBrowser) (rest : List PoolBrowser)
    (hav : p.available = b :: rest) (hc : b.connected = true) :
    acquireStep p = (.reused b, { p with available := rest }) ∧
    (acquireStep p).2.created = p.created := by
  unfold acquireStep
  rw [hav]
  simp [hc]

/-- Witness for the corrected C4 statement at a pool with one connected idle
browser. -/
theorem acquire_reuses_top_connected_witness :
    (livePool.available = ({ id := 7, connected := true } : PoolBrowser) :: [] ∧
     ({ id := 7, connected := true } : PoolBrowser).connected = true) ∧
    (acquireStep livePool =
      (.reused { id := 7, connected := true }, { livePool with available := [] }) ∧
     (acquireStep livePool).2.created = livePool.created) :=
  ⟨⟨rfl, rfl⟩,
   acquire_reuses_top_connected livePool { id := 7, connected := true } [] rfl rfl⟩

/-- C4 counterexample: the idle stack of stalePool contains a connected
browser, yet acquire pops the disconnected top entry, discards it, and
creates a new browser. -/
theorem acquire_skips_deeper_idle :
    (stalePool.available.any fun br => br.connected) = true ∧
    acquireStep stalePool =
      (.madeNew,
        { maxSize := 3, created := 3, available := [{ id := 1, connected := true }] }) := by
  decide

/-- C7: a job created pending settles at most once, because its background
promise settles at most once with one then/catch pair attached; over every
settlement trace of length at most one the job is either still pending with
no settlement, or completed carrying the result list of an ok settlement, or
failed carrying the error of an error settlement, and in the latter two
cases the trace is exhausted, so no further transition follows. -/
theorem job_lifecycle (events : List (Except String (List Business)))
    (h : events.length ≤ 1) :
    (events = [] ∧ jobAfterEvents events = mkPendingJob) ∨
    (∃ rs, events = [Except.ok rs] ∧ jobAfterEvents events =
      { status := JobStatus.completed, results := some rs, error := none }) ∨
    (∃ e, events = [Except.error e] ∧ jobAfterEvents events =
      { status := JobStatus.failed, results := none, error := some e }) := by
  match events with
  | [] => exact Or.inl ⟨rfl, rfl⟩
  | [Except.ok rs] => exact Or.inr (Or.inl ⟨rs, rfl, rfl⟩)
  | [Except.error e] => exact Or.inr (Or.inr ⟨e, rfl, rfl⟩)
  | a :: b :: t => simp at h

/-- Witness for C7 at a single ok settlement carrying an empty result list. -/
theorem job_lifecycle_witness :
    ([Except.ok ([] : List Business)] : List (Except String (List Business))).length ≤ 1 ∧
    ((([Except.ok ([] : List Business)] : List (Except String (List Business))) = [] ∧
        jobAfterEvents [Except.ok ([] : List Business)] = mkPendingJob) ∨
     (∃ rs, ([Except.ok ([] : List Business)] : List (Except String (List Business))) =
          [Except.ok rs] ∧
        jobAfterEvents [Except.ok ([] : List Business)] =
          { status := JobStatus.completed, results := some rs, error := none }) ∨
     (∃ e, ([Except.ok ([] : List Business)] : List (Except String (List Business))) =
          [Except.error e] ∧
        jobAfterEvents [Except.ok ([] : List Business)] =
          { status := JobStatus.failed, results := none, error := some e })) :=
  ⟨by decide, job_lifecycle [Except.ok ([] : List Business)] (by decide)⟩

/-- C9: for every admitted request to the synchronous endpoint with a truthy
query, the orchestration is invoked with the requested maxResults capped at
100 and the requested workers capped at 5; oversized values are clamped and
never rejected, whatever their magnitude. -/
theorem sync_clamps_params (activeJobs maxJobs defaultWorkers : Nat) (q : String)
    (maxResults workers : Option Nat) (hq : q ≠ "") (hcap : activeJobs < maxJobs) :
    syncHandler activeJobs maxJobs defaultWorkers (some q) maxResults workers =
      .invoke q (min (maxResults.getD 20) 100) (min (workers.getD defaultWorkers) 5) := by
  unfold syncHandler
  simp [hq, Nat.not_le.mpr hcap]

/-- Witness for C9 at a request far above both caps. -/
theorem sync_clamps_params_witness :
    (("pizza" : String) ≠ "" ∧ 0 < 5) ∧
    syncHandler 0 5 3 (some "pizza") (some 1000) (some 50) =
      .invoke "pizza" (min ((some 1000 : Option Nat).getD 20) 100)
        (min ((some 50 : Option Nat).getD 3) 5) :=
  ⟨⟨by decide, by decide⟩,
   sync_clamps_params 0 5 3 "pizza" (some 1000) (some 50) (by decide) (by decide)⟩
